import Mathlib

/-!
# distriscrappy: the crawler of `main.go`

A shallow embedding of `main.go`: the `Manager` actor, which owns the seen-set
`visited` and spawns one `Visitor` per unseen link of a `VisitRequest`, and the
`Visitor` actor, which fetches its URL, extracts the links of the page, hands the
page to the sink and reports the links to the `Manager`.

Conventions.
* A Go `string` is a byte string; it is written here as the Lean `String` whose
  characters are those bytes.
* A Go `error` result is an `Option Error`: `none` is `nil`.
* The packages `net/url`, `net/http` and `golang.org/x/net/html` are not part of
  the repository. The functions of `main.go` take what they call from them as
  arguments (`URLPackage`, `Get`, the token stream of a `Body`), so the general
  theorems hold for every behaviour of those packages. `GoURL` further down is a
  model of `net/url` itself, used to evaluate the crawler on concrete links.
* Logging (`slog`, `fmt.Println`) is left out; every other effect of a handler
  (spawning a child, sending a message, poisoning a PID, calling the sink) is
  returned as a value.
-/

namespace Distriscrappy

/-- A non-nil Go `error`, by its message. -/
abbrev Error := String

/-- The content of a reader: the bytes it yields. -/
abbrev Bytes := List Nat

/-- The type `VisitFunc func(io.Reader) error`: the sink. `none` is a nil error. -/
abbrev VisitFunc := Bytes → Option Error

/-- The struct `VisitRequest`: a link batch and the sink that goes with it. -/
structure VisitRequest where
  links : List String
  visitFunc : VisitFunc

/-- The function `NewVisitRequest`. Its sink reads the whole reader and prints it;
`io.ReadAll` on the `bytes.Buffer` it is given does not fail, so it returns nil. -/
def NewVisitRequest (links : List String) : VisitRequest :=
  { links := links, visitFunc := fun _ => none }

/-- The type `actor.PID`. -/
structure PID where
  Address : String
  ID : String
  deriving DecidableEq

/-- What `main.go` calls from `net/url`, for a URL type `U`: `url.Parse`,
`(*URL).String` and `(*URL).ResolveReference`. -/
structure URLPackage (U : Type) where
  Parse : String → Except Error U
  URLString : U → String
  ResolveReference : U → U → U

/-- The type `html.TokenType`. -/
inductive TokenType
  | ErrorToken
  | TextToken
  | StartTagToken
  | EndTagToken
  | SelfClosingTagToken
  | CommentToken
  | DoctypeToken
  deriving DecidableEq

/-- The type `html.Attribute`. -/
structure Attribute where
  Namespace : String
  Key : String
  Val : String
  deriving DecidableEq

/-- The type `html.Token`; `Typ` is its field `Type`. -/
structure Token where
  Typ : TokenType
  Data : String
  Attr : List Attribute
  deriving DecidableEq

/-- A response body as `doVisit` sees it through `io.TeeReader` and
`html.NewTokenizer`: the tokens the tokenizer yields, in document order, before
`Next` returns `ErrorToken` for lack of input; the error `Err()` then reports
(`io.EOF` at the ordinary end of the stream, any other read error otherwise); and
the bytes that were read up to that point, which the tee has copied to `w`. -/
structure Body where
  tokens : List Token
  err : Error
  raw : Bytes

/-- The error `io.EOF`. -/
def ioEOF : Error := "EOF"

/-- The struct `Visitor`. -/
structure Visitor (U : Type) where
  managerPID : PID
  URL : U
  visitFn : VisitFunc

/-- The struct `Manager`. A Go map is a finite partial function: `visited k` is
`none` when `k` is not a key. -/
structure Manager where
  visited : String → Option Bool
  visitors : PID → Option Bool

/-- The receiver `NewManager` produces: both maps empty. -/
def NewManager : Manager :=
  { visited := fun _ => none, visitors := fun _ => none }

/-- The map assignment `m[k] = v`. -/
def mapSet (m : String → Option Bool) (k : String) (v : Bool) : String → Option Bool :=
  fun x => if x = k then some v else m x

/-- One call `c.SpawnChild(NewVisitor(baseURL, c.PID(), msg.visitFunc), "visitor/"+link)`:
the link it is made for, the Visitor it produces and the child's name. -/
structure Spawned (U : Type) where
  link : String
  visitor : Visitor U
  name : String

/-- The state of `Manager.handleVisitRequest` between two links of the batch, and
its result: the Manager, the children spawned so far, and the error returned. -/
structure Handled (U : Type) where
  m : Manager
  spawned : List (Spawned U)
  err : Option Error

/-- The loop of `Manager.handleVisitRequest` over `msg.links`, from the link
`links` starts with: `m` is the Manager and `acc` the children spawned so far.
`self` is `c.PID()`. A parse error returns at once. -/
def handleLinks {U : Type} (url : URLPackage U) (self : PID) (visitFunc : VisitFunc) :
    Manager → List (Spawned U) → List String → Handled U
  | m, acc, [] => { m := m, spawned := acc, err := none }
  | m, acc, link :: rest =>
    match m.visited link with
    | none =>
      match url.Parse link with
      | .error err => { m := m, spawned := acc, err := some err }
      | .ok baseURL =>
        handleLinks url self visitFunc
          { m with visited := mapSet m.visited link true }
          (acc ++ [{ link := link
                     visitor := { managerPID := self, URL := baseURL, visitFn := visitFunc }
                     name := "visitor/" ++ link }])
          rest
    | some _ => handleLinks url self visitFunc m acc rest

/-- The method `Manager.handleVisitRequest`. -/
def handleVisitRequest {U : Type} (url : URLPackage U) (self : PID) (m : Manager)
    (msg : VisitRequest) : Handled U :=
  handleLinks url self msg.visitFunc m [] msg.links

/-- The messages the two actors switch on. -/
inductive Message
  | VisitRequest (msg : Distriscrappy.VisitRequest)
  | Started
  | Stopped

/-- The method `Manager.Receive`: the Manager afterwards and the children
spawned. The error of `handleVisitRequest` is discarded, as in the source. -/
def Manager.Receive {U : Type} (url : URLPackage U) (self : PID) (m : Manager) :
    Message → Manager × List (Spawned U)
  | .VisitRequest msg =>
    let r := handleVisitRequest url self m msg
    (r.m, r.spawned)
  | .Started => (m, [])
  | .Stopped => (m, [])

/-- A sequence of link batches delivered to the Manager one after another, each
handled start to finish by `Manager.Receive`: the final Manager and all the
children spawned, in order. -/
def handleAll {U : Type} (url : URLPackage U) (self : PID) :
    Manager → List VisitRequest → Manager × List (Spawned U)
  | m, [] => (m, [])
  | m, msg :: rest =>
    let r := Manager.Receive url self m (.VisitRequest msg)
    let r2 := handleAll url self r.1 rest
    (r2.1, r.2 ++ r2.2)

/-- The loop of `extractLinks` over `token.Attr`, `links` being the slice built so
far: the slice afterwards and the error that stopped the loop, if any. -/
def extractAttrs {U : Type} (url : URLPackage U) (v : Visitor U) :
    List String → List Attribute → List String × Option Error
  | links, [] => (links, none)
  | links, attr :: rest =>
    if attr.Key = "href" then
      match url.Parse attr.Val with
      | .error err => (links, some err)
      | .ok lurl =>
        extractAttrs url v
          (links ++ [url.URLString (url.ResolveReference v.URL lurl)]) rest
    else extractAttrs url v links rest

/-- The loop of `extractLinks` over the tokens `tokenizer.Next()` yields. At the
end of the list `Next` returns `ErrorToken`, and the loop returns `links, nil`
whatever `tokenizer.Err()` is: the source does not look at it. -/
def extractTokens {U : Type} (url : URLPackage U) (v : Visitor U) :
    List String → List Token → List String × Option Error
  | links, [] => (links, none)
  | links, token :: rest =>
    if token.Typ = TokenType.ErrorToken then (links, none)
    else if token.Typ = TokenType.StartTagToken then
      if token.Data = "a" then
        match extractAttrs url v links token.Attr with
        | (links2, some err) => (links2, some err)
        | (links2, none) => extractTokens url v links2 rest
      else extractTokens url v links rest
    else extractTokens url v links rest

/-- The method `Visitor.extractLinks`. -/
def extractLinks {U : Type} (url : URLPackage U) (v : Visitor U) (body : Body) :
    List String × Option Error :=
  extractTokens url v [] body.tokens

/-- What `Visitor.doVisit` returns, and the sink calls it made (each with the
content of the buffer `w` it passed). -/
structure Visit where
  links : List String
  err : Option Error
  sinkCalls : List Bytes

/-- The method `Visitor.doVisit`; `Get` is `http.Get`, returning the body of the
response. When the sink is called the scan has reached the end of the body, so
`w` holds all of `raw`. -/
def doVisit {U : Type} (url : URLPackage U) (Get : String → Except Error Body)
    (v : Visitor U) (link : String) (visit : VisitFunc) : Visit :=
  match url.Parse link with
  | .error err => { links := [], err := some err, sinkCalls := [] }
  | .ok baseURL =>
    match Get (url.URLString baseURL) with
    | .error err => { links := [], err := some err, sinkCalls := [] }
    | .ok resp =>
      match extractLinks url v resp with
      | (_, some err) => { links := [], err := some err, sinkCalls := [] }
      | (links, none) =>
        match visit resp.raw with
        | some err => { links := [], err := some err, sinkCalls := [resp.raw] }
        | none => { links := links, err := none, sinkCalls := [resp.raw] }

/-- An effect of the Visitor's handler on the world outside it. -/
inductive Effect
  | Visit (w : Bytes)
  | Send (pid : PID) (msg : VisitRequest)
  | Poison (pid : PID)

/-- The method `Visitor.Receive`; `self` is `c.PID()`. The effects are listed in
the order they happen. -/
def Visitor.Receive {U : Type} (url : URLPackage U) (Get : String → Except Error Body)
    (self : PID) (v : Visitor U) : Message → List Effect
  | .Started =>
    let r := doVisit url Get v (url.URLString v.URL) v.visitFn
    match r.err with
    | some _ => r.sinkCalls.map Effect.Visit
    | none =>
      r.sinkCalls.map Effect.Visit ++
        [Effect.Send v.managerPID (NewVisitRequest r.links), Effect.Poison self]
  | .Stopped => []
  | .VisitRequest _ => []

/-- The link batches among the effects, each with the PID it is sent to. -/
def sentBatches : List Effect → List (PID × List String)
  | [] => []
  | .Send pid msg :: rest => (pid, msg.links) :: sentBatches rest
  | _ :: rest => sentBatches rest

/-- The PIDs poisoned among the effects. -/
def poisoned : List Effect → List PID
  | [] => []
  | .Poison pid :: rest => pid :: poisoned rest
  | _ :: rest => poisoned rest

/-- The links for which the children of `s` were spawned. -/
def spawnedLinks {U : Type} (s : List (Spawned U)) : List String :=
  s.map fun sp => sp.link

/-- The canonical URLs of the children of `s`: the string form of the parsed URL
each Visitor is bound to. -/
def spawnedURLs {U : Type} (url : URLPackage U) (s : List (Spawned U)) : List String :=
  s.map fun sp => url.URLString sp.visitor.URL

/-- All the links of a sequence of batches, in order. -/
def allLinks (msgs : List VisitRequest) : List String :=
  msgs.flatMap fun msg => msg.links

/-- A list with the later repeats of each element removed: the first occurrence
of every element stays, in the order of the list. -/
def removeLaterRepeats : List String → List String
  | [] => []
  | x :: xs => x :: (removeLaterRepeats xs).filter fun y => decide (y ≠ x)

/-- The href values of the start tags named `a` among `tokens`, in document
order. -/
def anchorHrefs (tokens : List Token) : List String :=
  tokens.flatMap fun token =>
    if token.Typ = TokenType.StartTagToken ∧ token.Data = "a" then
      (token.Attr.filter fun attr => decide (attr.Key = "href")).map fun attr => attr.Val
    else []

/-- The tokens the scan yields before it stops: those before the first
`ErrorToken`. -/
def scanned (tokens : List Token) : List Token :=
  tokens.takeWhile fun token => decide (token.Typ ≠ TokenType.ErrorToken)

/-- The resolved link of an href that parses: the string form of its resolution
against `base`. -/
def resolved {U : Type} (url : URLPackage U) (base : U) (href : String) : Option String :=
  match url.Parse href with
  | .ok lurl => some (url.URLString (url.ResolveReference base lurl))
  | .error _ => none

/-- The extraction the source performs, told on the hrefs alone: they are
resolved in order against `base`, and the first one that fails to parse stops the
extraction with its error, the links before it being kept. -/
def resolveAll {U : Type} (url : URLPackage U) (base : U) :
    List String → List String × Option Error
  | [] => ([], none)
  | href :: rest =>
    match url.Parse href with
    | .error err => ([], some err)
    | .ok lurl =>
      (url.URLString (url.ResolveReference base lurl) :: (resolveAll url base rest).1,
        (resolveAll url base rest).2)

/-!
## The package `net/url`

A model of `url.Parse`, `(*URL).String` and `(*URL).ResolveReference` of the Go
standard library (Go 1.22), by which the crawler is evaluated on concrete links.
A Go string is the list of its bytes, each written as the character of that
code. An error is identified by the message of its cause.
-/

namespace GoURL

/-- The struct `url.Userinfo`. -/
structure Userinfo where
  username : List Char
  password : List Char
  passwordSet : Bool
  deriving DecidableEq

/-- The struct `url.URL`; a nil `User` is `none`. -/
structure URL where
  Scheme : List Char
  Opaque : List Char
  User : Option Userinfo
  Host : List Char
  Path : List Char
  RawPath : List Char
  OmitHost : Bool
  ForceQuery : Bool
  RawQuery : List Char
  Fragment : List Char
  RawFragment : List Char
  deriving DecidableEq

/-- The zero value of `URL`. -/
def URL.zero : URL :=
  { Scheme := [], Opaque := [], User := none, Host := [], Path := [], RawPath := [],
    OmitHost := false, ForceQuery := false, RawQuery := [], Fragment := [],
    RawFragment := [] }

/-- The type `encoding`. -/
inductive encoding
  | encodePath
  | encodePathSegment
  | encodeHost
  | encodeZone
  | encodeUserPassword
  | encodeQueryComponent
  | encodeFragment
  deriving DecidableEq

open encoding

/-- The byte `c` lies between the bytes `lo` and `hi`. -/
def between (lo hi c : Char) : Bool :=
  decide (lo.toNat ≤ c.toNat) && decide (c.toNat ≤ hi.toNat)

/-- An ASCII letter or digit. -/
def isAlnum (c : Char) : Bool := between 'a' 'z' c || between 'A' 'Z' c || between '0' '9' c

/-- The function `ishex`. -/
def ishex (c : Char) : Bool := between '0' '9' c || between 'a' 'f' c || between 'A' 'F' c

/-- The function `unhex`. -/
def unhex (c : Char) : Nat :=
  if between '0' '9' c then c.toNat - '0'.toNat
  else if between 'a' 'f' c then c.toNat - 'a'.toNat + 10
  else if between 'A' 'F' c then c.toNat - 'A'.toNat + 10
  else 0

/-- The function `shouldEscape`. -/
def shouldEscape (c : Char) (mode : encoding) : Bool :=
  if isAlnum c then false
  else if (mode = encodeHost || mode = encodeZone) &&
      c ∈ ['!', '$', '&', Char.ofNat 39, '(', ')', '*', '+', ',', ';', '=', ':', '[', ']', '<',
        '>', Char.ofNat 34]
  then false
  else if c ∈ ['-', '_', '.', '~'] then false
  else if c ∈ ['$', '&', '+', ',', '/', ':', ';', '=', '?', '@'] &&
      mode ∈ [encodePath, encodePathSegment, encodeUserPassword, encodeQueryComponent,
        encodeFragment]
  then
    match mode with
    | encodePath => c = '?'
    | encodePathSegment => c = '/' || c = ';' || c = ',' || c = '?'
    | encodeUserPassword => c = '@' || c = '/' || c = '?' || c = ':'
    | encodeQueryComponent => true
    | _ => false
  else if mode = encodeFragment && c ∈ ['!', '(', ')', '*'] then false
  else true

/-- The first pass of `unescape`: the error it returns, if any. -/
def unescapeCheck (mode : encoding) : List Char → Option Error
  | [] => none
  | c :: rest =>
    if c = '%' then
      match rest with
      | a :: b :: rest2 =>
        if !(ishex a && ishex b) then some "invalid URL escape"
        else if mode = encodeHost && unhex a < 8 && [c, a, b] ≠ ['%', '2', '5'] then
          some "invalid URL escape"
        else if mode = encodeZone && [c, a, b] ≠ ['%', '2', '5'] &&
            unhex a * 16 + unhex b ≠ ' '.toNat &&
            shouldEscape (Char.ofNat (unhex a * 16 + unhex b)) encodeHost then
          some "invalid URL escape"
        else unescapeCheck mode rest2
      | _ => some "invalid URL escape"
    else if c = '+' then unescapeCheck mode rest
    else if (mode = encodeHost || mode = encodeZone) && c.toNat < 128 &&
        shouldEscape c encodeHost then
      some "invalid character in host name"
    else unescapeCheck mode rest

/-- The second pass of `unescape`, on a string the first pass accepts. When the
string has no escape (and no `+` in a query component) the source returns it as it
is, which is what this pass leaves of it. -/
def unescapeDecode (mode : encoding) : List Char → List Char
  | [] => []
  | c :: rest =>
    if c = '%' then
      match rest with
      | a :: b :: rest2 => Char.ofNat (unhex a * 16 + unhex b) :: unescapeDecode mode rest2
      | _ => []
    else if c = '+' then
      (if mode = encodeQueryComponent then ' ' else '+') :: unescapeDecode mode rest
    else c :: unescapeDecode mode rest

/-- The function `unescape`. -/
def unescape (s : List Char) (mode : encoding) : Except Error (List Char) :=
  match unescapeCheck mode s with
  | some err => .error err
  | none => .ok (unescapeDecode mode s)

/-- The digit `upperhex[n]`. -/
def upperhex (n : Nat) : Char := "0123456789ABCDEF".toList.getD (n % 16) '0'

/-- The function `escape`. -/
def escape (s : List Char) (mode : encoding) : List Char :=
  s.flatMap fun c =>
    if shouldEscape c mode then
      if c = ' ' && mode = encodeQueryComponent then ['+']
      else ['%', upperhex (c.toNat / 16), upperhex (c.toNat % 16)]
    else [c]

/-- The function `validEncoded`. -/
def validEncoded (s : List Char) (mode : encoding) : Bool :=
  s.all fun c =>
    c ∈ ['!', '$', '&', Char.ofNat 39, '(', ')', '*', '+', ',', ';', '=', ':', '@', '[', ']',
        '%'] ||
      !shouldEscape c mode

/-- `strings.Cut(s, sep)` for a separator of one byte. -/
def cut (sep : Char) : List Char → List Char × List Char × Bool
  | [] => ([], [], false)
  | c :: rest =>
    if c = sep then ([], rest, true)
    else
      let r := cut sep rest
      (c :: r.1, r.2.1, r.2.2)

/-- The split of `s` at the last `sep`, as `strings.LastIndex(s, sep)` gives for a
separator of one byte: `s[:i]` and `s[i+1:]`, or `none` when `i < 0`. -/
def cutLast (sep : Char) (s : List Char) : Option (List Char × List Char) :=
  match cut sep s.reverse with
  | (after, before, true) => some (before.reverse, after.reverse)
  | _ => none

/-- `strings.Index(s, pat)`, `none` for -1. -/
def index (pat : List Char) : List Char → Option Nat
  | [] => if pat = [] then some 0 else none
  | c :: rest =>
    if pat.isPrefixOf (c :: rest) then some 0 else (index pat rest).map (· + 1)

/-- `strings.Split(s, sep)` for a separator of one byte. -/
def split (sep : Char) : List Char → List (List Char)
  | [] => [[]]
  | c :: rest =>
    if c = sep then [] :: split sep rest
    else
      match split sep rest with
      | [] => [[c]]
      | seg :: segs => (c :: seg) :: segs

/-- `strings.ToLower` on ASCII. -/
def toLower (s : List Char) : List Char :=
  s.map fun c => if between 'A' 'Z' c then Char.ofNat (c.toNat + 32) else c

/-- The function `stringContainsCTLByte`. -/
def stringContainsCTLByte (s : List Char) : Bool :=
  s.any fun c => decide (c.toNat < 32) || c.toNat = 127

/-- The loop of `getScheme` at index `i`, `s` being `rawURL[i:]`. -/
def getSchemeAt (rawURL : List Char) : Nat → List Char → Except Error (List Char × List Char)
  | _, [] => .ok ([], rawURL)
  | i, c :: s =>
    if between 'a' 'z' c || between 'A' 'Z' c then getSchemeAt rawURL (i + 1) s
    else if between '0' '9' c || c = '+' || c = '-' || c = '.' then
      if i = 0 then .ok ([], rawURL) else getSchemeAt rawURL (i + 1) s
    else if c = ':' then
      if i = 0 then .error "missing protocol scheme" else .ok (rawURL.take i, s)
    else .ok ([], rawURL)

/-- The function `getScheme`. -/
def getScheme (rawURL : List Char) : Except Error (List Char × List Char) :=
  getSchemeAt rawURL 0 rawURL

/-- The function `validOptionalPort`. -/
def validOptionalPort : List Char → Bool
  | [] => true
  | c :: rest => c = ':' && rest.all (between '0' '9')

/-- The function `validUserinfo`. -/
def validUserinfo (s : List Char) : Bool :=
  s.all fun c =>
    isAlnum c ||
      c ∈ ['-', '.', '_', ':', '~', '!', '$', '&', Char.ofNat 39, '(', ')', '*', '+', ',', ';',
        '=', '%', '@']

/-- The function `parseHost`. -/
def parseHost (host : List Char) : Except Error (List Char) :=
  if ['['].isPrefixOf host then
    match cutLast ']' host with
    | none => .error "missing ']' in host"
    | some (before, colonPort) =>
      if !validOptionalPort colonPort then .error "invalid port after host"
      else
        match index ['%', '2', '5'] before with
        | some zone =>
          match unescape (host.take zone) encodeHost with
          | .error err => .error err
          | .ok host1 =>
            match unescape ((host.take before.length).drop zone) encodeZone with
            | .error err => .error err
            | .ok host2 =>
              match unescape (host.drop before.length) encodeHost with
              | .error err => .error err
              | .ok host3 => .ok (host1 ++ host2 ++ host3)
        | none => unescape host encodeHost
  else
    match cutLast ':' host with
    | some (_, port) =>
      if !validOptionalPort (':' :: port) then .error "invalid port after host"
      else unescape host encodeHost
    | none => unescape host encodeHost

/-- The function `parseAuthority`. -/
def parseAuthority (authority : List Char) : Except Error (Option Userinfo × List Char) :=
  match cutLast '@' authority with
  | none =>
    match parseHost authority with
    | .error err => .error err
    | .ok host => .ok (none, host)
  | some (userinfo, hostpart) =>
    match parseHost hostpart with
    | .error err => .error err
    | .ok host =>
      if !validUserinfo userinfo then .error "net/url: invalid userinfo"
      else if !userinfo.contains ':' then
        match unescape userinfo encodeUserPassword with
        | .error err => .error err
        | .ok u => .ok (some { username := u, password := [], passwordSet := false }, host)
      else
        let c := cut ':' userinfo
        match unescape c.1 encodeUserPassword with
        | .error err => .error err
        | .ok username =>
          match unescape c.2.1 encodeUserPassword with
          | .error err => .error err
          | .ok password =>
            .ok (some { username := username, password := password, passwordSet := true },
              host)

/-- The method `(*URL).setPath`. -/
def URL.setPath (u : URL) (p : List Char) : Except Error URL :=
  match unescape p encodePath with
  | .error err => .error err
  | .ok path =>
    .ok { u with Path := path, RawPath := if p = escape path encodePath then [] else p }

/-- The method `(*URL).setFragment`. -/
def URL.setFragment (u : URL) (f : List Char) : Except Error URL :=
  match unescape f encodeFragment with
  | .error err => .error err
  | .ok frag =>
    .ok { u with
      Fragment := frag, RawFragment := if f = escape frag encodeFragment then [] else f }

/-- The function `parse` with `viaRequest` false. -/
def parse (rawURL : List Char) : Except Error URL :=
  if stringContainsCTLByte rawURL then .error "net/url: invalid control character in URL"
  else if rawURL = ['*'] then .ok { URL.zero with Path := ['*'] }
  else
    match getScheme rawURL with
    | .error err => .error err
    | .ok (scheme, rest0) =>
      let url1 : URL := { URL.zero with Scheme := toLower scheme }
      let q : URL × List Char :=
        if ['?'].isSuffixOf rest0 && rest0.count '?' = 1 then
          ({ url1 with ForceQuery := true }, rest0.take (rest0.length - 1))
        else
          let c := cut '?' rest0
          ({ url1 with RawQuery := c.2.1 }, c.1)
      let url2 := q.1
      let rest := q.2
      if !(['/'].isPrefixOf rest) && url2.Scheme ≠ [] then .ok { url2 with Opaque := rest }
      else if !(['/'].isPrefixOf rest) && (cut '/' rest).1.contains ':' then
        .error "first path segment in URL cannot contain colon"
      else if (url2.Scheme ≠ [] || !(['/', '/', '/'].isPrefixOf rest)) &&
          ['/', '/'].isPrefixOf rest then
        let a := cut '/' (rest.drop 2)
        let authority := a.1
        let rest2 := if a.2.2 then '/' :: a.2.1 else []
        match parseAuthority authority with
        | .error err => .error err
        | .ok (user, host) => URL.setPath { url2 with User := user, Host := host } rest2
      else if url2.Scheme ≠ [] && ['/'].isPrefixOf rest then
        URL.setPath { url2 with OmitHost := true } rest
      else URL.setPath url2 rest

/-- The function `url.Parse` on the bytes of the URL. -/
def ParseBytes (rawURL : List Char) : Except Error URL :=
  let c := cut '#' rawURL
  match parse c.1 with
  | .error err => .error err
  | .ok url => if c.2.1 = [] then .ok url else URL.setFragment url c.2.1

/-- The test `p, err := unescape(raw, mode); err == nil && p == s`. -/
def unescapesTo (raw : List Char) (mode : encoding) (s : List Char) : Bool :=
  match unescape raw mode with
  | .ok p => p = s
  | .error _ => false

/-- The method `(*URL).EscapedPath`. -/
def URL.EscapedPath (u : URL) : List Char :=
  if u.RawPath ≠ [] && validEncoded u.RawPath encodePath &&
      unescapesTo u.RawPath encodePath u.Path then u.RawPath
  else if u.Path = ['*'] then ['*']
  else escape u.Path encodePath

/-- The method `(*URL).EscapedFragment`. -/
def URL.EscapedFragment (u : URL) : List Char :=
  if u.RawFragment ≠ [] && validEncoded u.RawFragment encodeFragment &&
      unescapesTo u.RawFragment encodeFragment u.Fragment then u.RawFragment
  else escape u.Fragment encodeFragment

/-- The method `(*Userinfo).String` of a non-nil receiver. -/
def Userinfo.String (ui : Userinfo) : List Char :=
  escape ui.username encodeUserPassword ++
    (if ui.passwordSet then ':' :: escape ui.password encodeUserPassword else [])

/-- The method `(*URL).String`, as bytes. -/
def URL.StringBytes (u : URL) : List Char :=
  let buf1 := if u.Scheme ≠ [] then u.Scheme ++ [':'] else []
  let buf2 :=
    if u.Opaque ≠ [] then buf1 ++ u.Opaque
    else
      let buf3 :=
        if u.Scheme ≠ [] || u.Host ≠ [] || u.User.isSome then
          if u.OmitHost && u.Host = [] && u.User.isNone then buf1
          else
            buf1 ++ (if u.Host ≠ [] || u.Path ≠ [] || u.User.isSome then ['/', '/'] else []) ++
              (match u.User with
                | some ui => ui.String ++ ['@']
                | none => []) ++
              (if u.Host ≠ [] then escape u.Host encodeHost else [])
        else buf1
      let path := u.EscapedPath
      let buf4 :=
        if path ≠ [] && path.head? ≠ some '/' && u.Host ≠ [] then buf3 ++ ['/'] else buf3
      let buf5 :=
        if buf4 = [] && (cut '/' path).1.contains ':' then buf4 ++ ['.', '/'] else buf4
      buf5 ++ path
  let buf6 := if u.ForceQuery || u.RawQuery ≠ [] then buf2 ++ ['?'] ++ u.RawQuery else buf2
  if u.Fragment ≠ [] then buf6 ++ ['#'] ++ u.EscapedFragment else buf6

/-- The state of the loop of `resolvePath`: the builder `dst` and the flag
`first`. -/
structure Resolving where
  dst : List Char
  first : Bool

/-- One turn of the loop of `resolvePath`, for the element `elem`. -/
def resolveElem (st : Resolving) (elem : List Char) : Resolving :=
  if elem = ['.'] then { st with first := false }
  else if elem = ['.', '.'] then
    match cutLast '/' (st.dst.drop 1) with
    | none => { dst := ['/'], first := true }
    | some (before, _) => { dst := '/' :: before, first := st.first }
  else
    { dst := (if !st.first then st.dst ++ ['/'] else st.dst) ++ elem, first := false }

/-- The function `resolvePath`. -/
def resolvePath (base ref : List Char) : List Char :=
  let full :=
    if ref = [] then base
    else if ref.head? ≠ some '/' then
      (match cutLast '/' base with
        | some (before, _) => before ++ ['/']
        | none => []) ++ ref
    else ref
  if full = [] then []
  else
    let elems := split '/' full
    let st := elems.foldl resolveElem { dst := ['/'], first := true }
    let last := elems.getLastD []
    let r := if last = ['.'] || last = ['.', '.'] then st.dst ++ ['/'] else st.dst
    if 1 < r.length && (r.drop 1).head? = some '/' then r.drop 1 else r

/-- The call `url.setPath(p)` whose error the source ignores. -/
def URL.setPathIgnoringError (u : URL) (p : List Char) : URL :=
  match u.setPath p with
  | .ok u2 => u2
  | .error _ => u

/-- The method `(*URL).ResolveReference`. -/
def URL.ResolveReference (u ref : URL) : URL :=
  let url : URL := if ref.Scheme = [] then { ref with Scheme := u.Scheme } else ref
  if ref.Scheme ≠ [] || ref.Host ≠ [] || ref.User.isSome then
    url.setPathIgnoringError (resolvePath ref.EscapedPath [])
  else if ref.Opaque ≠ [] then { url with User := none, Host := [], Path := [] }
  else
    let url2 : URL :=
      if ref.Path = [] && !ref.ForceQuery && ref.RawQuery = [] then
        if ref.Fragment = [] then
          { url with RawQuery := u.RawQuery, Fragment := u.Fragment,
                     RawFragment := u.RawFragment }
        else { url with RawQuery := u.RawQuery }
      else url
    if ref.Path = [] && u.Opaque ≠ [] then
      { url2 with Opaque := u.Opaque, User := none, Host := [], Path := [] }
    else
      URL.setPathIgnoringError { url2 with Host := u.Host, User := u.User }
        (resolvePath u.EscapedPath ref.EscapedPath)

end GoURL

/-- The package `net/url` as `main.go` calls it. -/
def goURL : URLPackage GoURL.URL :=
  { Parse := fun s => GoURL.ParseBytes s.toList
    URLString := fun u => String.mk u.StringBytes
    ResolveReference := GoURL.URL.ResolveReference }

/-- The canonical URL of a link: the string form of its parsed URL, `none` when
the link does not parse. -/
def canonical {U : Type} (url : URLPackage U) (link : String) : Option String :=
  match url.Parse link with
  | .ok u => some (url.URLString u)
  | .error _ => none

/-!
## Concrete inputs
-/

/-- The PID of a Manager. -/
def managerPID : PID := { Address := "local", ID := "manager" }

/-- The PID of a Visitor. -/
def visitorPID : PID := { Address := "local", ID := "manager/visitor/https://example.com/a/b" }

/-- The batch of the malformed-link example. -/
def batchMalformed : VisitRequest :=
  NewVisitRequest ["https://ok.com", "://bad", "https://ok2.com"]

/-- A batch with two spellings of one URL. -/
def batchTwoForms : VisitRequest :=
  NewVisitRequest ["https://ok.com", "HTTPS://ok.com"]

/-- A malformed link followed by a well-formed one. -/
def batchBadFirst : VisitRequest := NewVisitRequest ["://bad", "https://ok.com"]

/-- The same two links, the well-formed one first. -/
def batchBadLast : VisitRequest := NewVisitRequest ["https://ok.com", "://bad"]

/-- Two batches of well-formed links. -/
def batchesA : List VisitRequest :=
  [NewVisitRequest ["https://ok.com", "https://ok2.com"], NewVisitRequest ["https://ok.com"]]

/-- The links of `batchesA`, grouped and ordered differently. -/
def batchesB : List VisitRequest :=
  [NewVisitRequest ["https://ok2.com"], NewVisitRequest [],
    NewVisitRequest ["https://ok.com", "https://ok2.com"]]

/-- A Manager that has seen `https://ok.com`. -/
def managerSeenOk : Manager :=
  { NewManager with visited := mapSet NewManager.visited "https://ok.com" true }

/-- A batch with a seen link and a repeated link. -/
def batchRepeats : VisitRequest :=
  NewVisitRequest ["https://ok2.com", "https://ok.com", "https://ok3.com", "https://ok2.com"]

/-- The URL `https://example.com/a/b`, as `url.Parse` returns it. -/
def exampleBase : GoURL.URL :=
  { GoURL.URL.zero with
    Scheme := "https".toList, Host := "example.com".toList, Path := "/a/b".toList }

/-- A sink that accepts every page. -/
def acceptingSink : VisitFunc := fun _ => none

/-- A sink that rejects every page. -/
def rejectingSink : VisitFunc := fun _ => some "sink: rejected"

/-- A Visitor bound to `https://example.com/a/b`. -/
def exampleVisitor : Visitor GoURL.URL :=
  { managerPID := managerPID, URL := exampleBase, visitFn := acceptingSink }

/-- The start tag `<a href="...">`. -/
def anchor (href : String) : Token :=
  { Typ := TokenType.StartTagToken, Data := "a"
    Attr := [{ Namespace := "", Key := "href", Val := href }] }

/-- A page with the three anchors of the resolution example, among other tokens. -/
def pageThreeLinks : Body :=
  { tokens :=
      [{ Typ := TokenType.StartTagToken, Data := "html", Attr := [] },
        { Typ := TokenType.StartTagToken, Data := "link"
          Attr := [{ Namespace := "", Key := "href", Val := "/style.css" }] },
        anchor "c",
        { Typ := TokenType.TextToken, Data := "c", Attr := [] },
        { Typ := TokenType.EndTagToken, Data := "a", Attr := [] },
        { Typ := TokenType.StartTagToken, Data := "a"
          Attr := [{ Namespace := "", Key := "class", Val := "x" },
            { Namespace := "", Key := "href", Val := "/d" }] },
        { Typ := TokenType.SelfClosingTagToken, Data := "a"
          Attr := [{ Namespace := "", Key := "href", Val := "/e" }] },
        anchor "https://other.com/x"]
    err := ioEOF
    raw := [60, 104, 116, 109, 108, 62] }

/-- A page whose second anchor has an href that does not parse. -/
def pageBadHref : Body :=
  { tokens := [anchor "c", anchor "://bad", anchor "/d"]
    err := ioEOF
    raw := [60, 97, 62] }

/-- A page whose scan stops on a read error that is not `io.EOF`. -/
def pageCutOff : Body :=
  { tokens := [anchor "/d"]
    err := "unexpected EOF"
    raw := [60, 97, 32] }

/-- An `http.Get` that answers every URL with the given body. -/
def getBody (body : Body) : String → Except Error Body := fun _ => .ok body

/-- An `http.Get` that fails. -/
def getFails : String → Except Error Body := fun _ => .error "dial tcp: connection refused"

/-!
## The Manager: lemmas
-/

theorem mem_removeLaterRepeats (k : String) :
    ∀ xs : List String, k ∈ removeLaterRepeats xs ↔ k ∈ xs
  | [] => by simp [removeLaterRepeats]
  | x :: xs => by
    have ih := mem_removeLaterRepeats k xs
    by_cases h : k = x <;> simp [removeLaterRepeats, List.mem_filter, ih, h]

theorem nodup_removeLaterRepeats : ∀ xs : List String, (removeLaterRepeats xs).Nodup
  | [] => by simp [removeLaterRepeats]
  | x :: xs => by
    simp only [removeLaterRepeats, List.nodup_cons, List.mem_filter]
    exact ⟨fun h => by simp at h, (nodup_removeLaterRepeats xs).filter _⟩

theorem removeLaterRepeats_filter (p : String → Bool) :
    ∀ xs : List String, removeLaterRepeats (xs.filter p) = (removeLaterRepeats xs).filter p
  | [] => by simp [removeLaterRepeats]
  | x :: xs => by
    have ih := removeLaterRepeats_filter p xs
    by_cases h : p x = true
    · simp only [List.filter_cons, h, if_true, removeLaterRepeats, ih, List.filter_filter]
      congr 1
      apply List.filter_congr
      intro y _
      exact Bool.and_comm _ _
    · simp only [List.filter_cons, h, removeLaterRepeats, ih, List.filter_filter]
      simp only [Bool.false_eq_true, if_false]
      rw [ih]
      apply List.filter_congr
      intro y _
      by_cases hy : y = x
      · subst hy
        simp [h]
      · simp [hy]

/-- What one run of the loop of `handleVisitRequest` does, from any Manager and
with any children already spawned: the new children are for pairwise different
links of the batch, each unseen before and bound to the parsed link, and the
seen-set afterwards is the seen-set before with those links set to true. -/
theorem handleLinks_spec {U : Type} (url : URLPackage U) (self : PID) (vf : VisitFunc) :
    ∀ (links : List String) (m : Manager) (acc : List (Spawned U)),
      ∃ new : List (Spawned U),
        (handleLinks url self vf m acc links).spawned = acc ++ new ∧
        (spawnedLinks new).Nodup ∧
        (∀ sp ∈ new, m.visited sp.link = none ∧ sp.link ∈ links ∧
          url.Parse sp.link = .ok sp.visitor.URL) ∧
        (∀ k, (handleLinks url self vf m acc links).m.visited k =
          if k ∈ spawnedLinks new then some true else m.visited k)
  | [], m, acc => ⟨[], by simp [handleLinks, spawnedLinks]⟩
  | link :: rest, m, acc => by
    cases hv : m.visited link with
    | some b =>
      obtain ⟨new, h1, h2, h3, h4⟩ := handleLinks_spec url self vf rest m acc
      refine ⟨new, ?_, h2, ?_, ?_⟩
      · simp only [handleLinks, hv]
        exact h1
      · intro sp hsp
        obtain ⟨a, b, c⟩ := h3 sp hsp
        exact ⟨a, List.mem_cons_of_mem _ b, c⟩
      · intro k
        simp only [handleLinks, hv]
        exact h4 k
    | none =>
      cases hp : url.Parse link with
      | error e =>
        exact ⟨[], by simp [handleLinks, hv, hp, spawnedLinks]⟩
      | ok baseURL =>
        obtain ⟨new, h1, h2, h3, h4⟩ := handleLinks_spec url self vf rest
          { m with visited := mapSet m.visited link true }
          (acc ++ [{ link := link
                     visitor := { managerPID := self, URL := baseURL, visitFn := vf }
                     name := "visitor/" ++ link }])
        have hnot : link ∉ spawnedLinks new := by
          intro hmem
          obtain ⟨sp, hsp, hl⟩ := List.mem_map.1 hmem
          have := (h3 sp hsp).1
          simp [mapSet, hl] at this
        refine ⟨{ link := link
                  visitor := { managerPID := self, URL := baseURL, visitFn := vf }
                  name := "visitor/" ++ link } :: new, ?_, ?_, ?_, ?_⟩
        · simp only [handleLinks, hv, hp]
          rw [h1]
          simp
        · simp only [spawnedLinks, List.map_cons, List.nodup_cons]
          exact ⟨hnot, h2⟩
        · intro sp hsp
          rcases List.mem_cons.1 hsp with rfl | hsp
          · exact ⟨hv, List.mem_cons_self _ _, hp⟩
          · obtain ⟨a, b, c⟩ := h3 sp hsp
            refine ⟨?_, List.mem_cons_of_mem _ b, c⟩
            simp only [mapSet] at a
            by_cases hl : sp.link = link
            · simp [hl] at a
            · simpa [hl] using a
        · intro k
          simp only [handleLinks, hv, hp]
          rw [h4 k]
          simp only [spawnedLinks, List.map_cons, List.mem_cons, mapSet]
          by_cases hk : k = link
          · subst hk
            simp
          · simp [hk]

theorem handleLinks_acc {U : Type} (url : URLPackage U) (self : PID) (vf : VisitFunc) :
    ∀ (links : List String) (m : Manager) (acc : List (Spawned U)),
      handleLinks url self vf m acc links =
        { m := (handleLinks url self vf m [] links).m
          spawned := acc ++ (handleLinks url self vf m [] links).spawned
          err := (handleLinks url self vf m [] links).err }
  | [], m, acc => by simp [handleLinks]
  | link :: rest, m, acc => by
    cases hv : m.visited link with
    | some b =>
      simp only [handleLinks, hv]
      exact handleLinks_acc url self vf rest m acc
    | none =>
      cases hp : url.Parse link with
      | error e => simp [handleLinks, hv, hp]
      | ok baseURL =>
        simp only [handleLinks, hv, hp]
        rw [handleLinks_acc url self vf rest _ (acc ++ _),
          handleLinks_acc url self vf rest _ ([] ++ _)]
        simp

theorem handleLinks_append {U : Type} (url : URLPackage U) (self : PID) (vf : VisitFunc) :
    ∀ (pre post : List String) (m : Manager) (acc : List (Spawned U)),
      (handleLinks url self vf m acc pre).err = none →
      handleLinks url self vf m acc (pre ++ post) =
        handleLinks url self vf (handleLinks url self vf m acc pre).m
          (handleLinks url self vf m acc pre).spawned post
  | [], post, m, acc, _ => by simp [handleLinks]
  | link :: rest, post, m, acc, h => by
    cases hv : m.visited link with
    | some b =>
      simp only [handleLinks, hv, List.cons_append] at h ⊢
      exact handleLinks_append url self vf rest post m acc h
    | none =>
      cases hp : url.Parse link with
      | error e => simp [handleLinks, hv, hp] at h
      | ok baseURL =>
        simp only [handleLinks, hv, hp, List.cons_append] at h ⊢
        exact handleLinks_append url self vf rest post _ _ h

theorem handleLinks_err_none {U : Type} (url : URLPackage U) (self : PID) (vf : VisitFunc) :
    ∀ (links : List String) (m : Manager) (acc : List (Spawned U)),
      (∀ l ∈ links, m.visited l ≠ none ∨ ∃ u, url.Parse l = .ok u) →
      (handleLinks url self vf m acc links).err = none
  | [], m, acc, _ => by simp [handleLinks]
  | link :: rest, m, acc, h => by
    cases hv : m.visited link with
    | some b =>
      simp only [handleLinks, hv]
      exact handleLinks_err_none url self vf rest m acc
        (fun l hl => h l (List.mem_cons_of_mem _ hl))
    | none =>
      cases hp : url.Parse link with
      | error e =>
        rcases h link (List.mem_cons_self _ _) with h1 | ⟨u, h1⟩
        · exact absurd hv h1
        · rw [hp] at h1
          cases h1
      | ok baseURL =>
        simp only [handleLinks, hv, hp]
        apply handleLinks_err_none url self vf rest
        intro l hl
        rcases h l (List.mem_cons_of_mem _ hl) with h1 | h1
        · left
          simp only [mapSet]
          by_cases hk : l = link
          · simp [hk]
          · simpa [hk] using h1
        · exact Or.inr h1

theorem handleLinks_links {U : Type} (url : URLPackage U) (self : PID) (vf : VisitFunc) :
    ∀ (links : List String) (m : Manager),
      (∀ l ∈ links, ∃ u, url.Parse l = .ok u) →
      spawnedLinks (handleLinks url self vf m [] links).spawned =
        removeLaterRepeats (links.filter fun l => decide (m.visited l = none))
  | [], m, _ => by simp [handleLinks, spawnedLinks, removeLaterRepeats]
  | link :: rest, m, h => by
    have hrest : ∀ l ∈ rest, ∃ u, url.Parse l = .ok u :=
      fun l hl => h l (List.mem_cons_of_mem _ hl)
    cases hv : m.visited link with
    | some b =>
      simp only [handleLinks, hv, List.filter_cons]
      simp only [reduceCtorEq, decide_False, Bool.false_eq_true, if_false]
      exact handleLinks_links url self vf rest m hrest
    | none =>
      obtain ⟨baseURL, hp⟩ := h link (List.mem_cons_self _ _)
      simp only [handleLinks, hv, hp, List.filter_cons, decide_True, if_true,
        removeLaterRepeats]
      rw [handleLinks_acc]
      have ih := handleLinks_links url self vf rest
        { m with visited := mapSet m.visited link true } hrest
      simp only [spawnedLinks, List.nil_append, List.map_append, List.map_cons, List.map_nil,
        List.singleton_append] at ih ⊢
      rw [ih, ← removeLaterRepeats_filter, List.filter_filter]
      congr 2
      apply List.filter_congr
      intro l _
      simp only [mapSet]
      by_cases hk : l = link
      · simp [hk]
      · simp [hk]

/-- What a sequence of batches does, from any Manager: the children are for
pairwise different links of the batches, each unseen at the start and bound to the
parsed link, and the final seen-set is the initial one with those links set to
true. -/
theorem handleAll_spec {U : Type} (url : URLPackage U) (self : PID) :
    ∀ (msgs : List VisitRequest) (m : Manager),
      (spawnedLinks (handleAll url self m msgs).2).Nodup ∧
      (∀ sp ∈ (handleAll url self m msgs).2, m.visited sp.link = none ∧
        sp.link ∈ allLinks msgs ∧ url.Parse sp.link = .ok sp.visitor.URL) ∧
      (∀ k, (handleAll url self m msgs).1.visited k =
        if k ∈ spawnedLinks (handleAll url self m msgs).2 then some true else m.visited k)
  | [], m => by simp [handleAll, spawnedLinks]
  | msg :: rest, m => by
    obtain ⟨new, h1, h2, h3, h4⟩ := handleLinks_spec url self msg.visitFunc msg.links m []
    rw [List.nil_append] at h1
    obtain ⟨g2, g3, g4⟩ := handleAll_spec url self rest
      (handleLinks url self msg.visitFunc m [] msg.links).m
    have hm : ∀ k, k ∈ spawnedLinks new →
        (handleLinks url self msg.visitFunc m [] msg.links).m.visited k = some true := by
      intro k hk
      rw [h4 k, if_pos hk]
    have hstep : handleAll url self m (msg :: rest) =
        ((handleAll url self (handleLinks url self msg.visitFunc m [] msg.links).m rest).1,
          new ++ (handleAll url self (handleLinks url self msg.visitFunc m [] msg.links).m
            rest).2) := by
      simp only [handleAll, Manager.Receive, handleVisitRequest, h1]
    rw [hstep]
    refine ⟨?_, ?_, ?_⟩
    · simp only [spawnedLinks, List.map_append]
      refine List.Nodup.append h2 g2 ?_
      intro k hk1 hk2
      obtain ⟨sp, hsp, hl⟩ := List.mem_map.1 hk2
      have := (g3 sp hsp).1
      rw [hl, hm k hk1] at this
      cases this
    · intro sp hsp
      rcases List.mem_append.1 hsp with hsp | hsp
      · obtain ⟨a, b, c⟩ := h3 sp hsp
        refine ⟨a, ?_, c⟩
        simp only [allLinks, List.flatMap_cons, List.mem_append]
        exact Or.inl b
      · obtain ⟨a, b, c⟩ := g3 sp hsp
        refine ⟨?_, ?_, c⟩
        swap
        · simp only [allLinks, List.flatMap_cons, List.mem_append]
          exact Or.inr b
        rw [h4] at a
        by_cases hk : sp.link ∈ spawnedLinks new
        · simp [hk] at a
        · simpa [hk] using a
    · intro k
      show (handleAll url self _ rest).1.visited k = _
      rw [g4 k, h4 k]
      simp only [spawnedLinks, List.map_append, List.mem_append]
      by_cases hk2 : k ∈ List.map (fun sp => sp.link)
          (handleAll url self (handleLinks url self msg.visitFunc m [] msg.links).m rest).2
      · simp [hk2]
      · simp [hk2]

/-!
## The Visitor: lemmas
-/

theorem resolveAll_append {U : Type} (url : URLPackage U) (base : U) :
    ∀ (a b : List String),
      resolveAll url base (a ++ b) =
        match (resolveAll url base a).2 with
        | none => ((resolveAll url base a).1 ++ (resolveAll url base b).1,
            (resolveAll url base b).2)
        | some err => ((resolveAll url base a).1, some err)
  | [], b => by simp [resolveAll]
  | href :: rest, b => by
    cases hp : url.Parse href with
    | error e => simp [resolveAll, hp]
    | ok lurl =>
      have ih := resolveAll_append url base rest b
      simp only [List.cons_append, resolveAll, hp]
      cases hr : (resolveAll url base rest).2 with
      | none =>
        rw [hr] at ih
        simp [ih]
      | some err =>
        rw [hr] at ih
        simp [ih]

theorem extractAttrs_eq {U : Type} (url : URLPackage U) (v : Visitor U) :
    ∀ (attrs : List Attribute) (links : List String),
      extractAttrs url v links attrs =
        (links ++ (resolveAll url v.URL
            ((attrs.filter fun attr => decide (attr.Key = "href")).map fun attr => attr.Val)).1,
          (resolveAll url v.URL
            ((attrs.filter fun attr => decide (attr.Key = "href")).map fun attr => attr.Val)).2)
  | [], links => by simp [extractAttrs, resolveAll]
  | attr :: rest, links => by
    by_cases hk : attr.Key = "href"
    · cases hp : url.Parse attr.Val with
      | error e => simp [extractAttrs, hk, hp, resolveAll]
      | ok lurl =>
        simp only [extractAttrs, hk, hp, if_true, List.filter_cons, decide_True, List.map_cons,
          resolveAll]
        rw [extractAttrs_eq url v rest]
        simp
    · simp only [extractAttrs, hk, if_false, List.filter_cons, decide_False,
        Bool.false_eq_true]
      exact extractAttrs_eq url v rest links

theorem extractTokens_eq {U : Type} (url : URLPackage U) (v : Visitor U) :
    ∀ (tokens : List Token) (links : List String),
      extractTokens url v links tokens =
        (links ++ (resolveAll url v.URL (anchorHrefs (scanned tokens))).1,
          (resolveAll url v.URL (anchorHrefs (scanned tokens))).2)
  | [], links => by simp [extractTokens, scanned, anchorHrefs, resolveAll]
  | token :: rest, links => by
    by_cases he : token.Typ = TokenType.ErrorToken
    · simp [extractTokens, he, scanned, anchorHrefs, resolveAll]
    · have hs : scanned (token :: rest) = token :: scanned rest := by
        simp [scanned, List.takeWhile_cons, he]
      rw [hs]
      by_cases ha : token.Typ = TokenType.StartTagToken ∧ token.Data = "a"
      · have hh : anchorHrefs (token :: scanned rest) =
            ((token.Attr.filter fun attr => decide (attr.Key = "href")).map
              fun attr => attr.Val) ++ anchorHrefs (scanned rest) := by
          simp [anchorHrefs, ha]
        rw [hh, resolveAll_append]
        simp only [extractTokens, he, ha.1, ha.2, if_true, if_false]
        rw [extractAttrs_eq url v token.Attr links]
        cases hr : (resolveAll url v.URL
            ((token.Attr.filter fun attr => decide (attr.Key = "href")).map
              fun attr => attr.Val)).2 with
        | some e => simp
        | none =>
          simp only []
          rw [extractTokens_eq url v rest]
          simp
      · have hh : anchorHrefs (token :: scanned rest) = anchorHrefs (scanned rest) := by
          simp [anchorHrefs, ha]
        rw [hh]
        have ih := extractTokens_eq url v rest links
        by_cases hst : token.Typ = TokenType.StartTagToken
        · have hd : token.Data ≠ "a" := fun hd => ha ⟨hst, hd⟩
          simp only [extractTokens, he, hst, hd, if_true, if_false]
          exact ih
        · simp only [extractTokens, he, hst, if_false]
          exact ih

/-- The method `extractLinks` does what `resolveAll` tells, on the hrefs of the
start tags named `a` that the scan yields. -/
theorem extractLinks_eq {U : Type} (url : URLPackage U) (v : Visitor U) (body : Body) :
    extractLinks url v body = resolveAll url v.URL (anchorHrefs (scanned body.tokens)) := by
  simp [extractLinks, extractTokens_eq]

theorem resolveAll_parsed {U : Type} (url : URLPackage U) (base : U) :
    ∀ hrefs : List String, (∀ h ∈ hrefs, ∃ u, url.Parse h = .ok u) →
      (resolveAll url base hrefs).2 = none ∧
      List.Forall₂
        (fun href link => ∃ lurl, url.Parse href = .ok lurl ∧
          link = url.URLString (url.ResolveReference base lurl))
        hrefs (resolveAll url base hrefs).1
  | [], _ => by simp [resolveAll]
  | href :: rest, h => by
    obtain ⟨lurl, hp⟩ := h href (List.mem_cons_self _ _)
    obtain ⟨h1, h2⟩ := resolveAll_parsed url base rest
      (fun x hx => h x (List.mem_cons_of_mem _ hx))
    simp only [resolveAll, hp]
    exact ⟨h1, List.Forall₂.cons ⟨lurl, hp, rfl⟩ h2⟩

theorem resolveAll_malformed {U : Type} (url : URLPackage U) (base : U)
    (pre : List String) (bad : String) (post : List String) (e : Error)
    (hpre : ∀ h ∈ pre, ∃ u, url.Parse h = .ok u) (hbad : url.Parse bad = .error e) :
    resolveAll url base (pre ++ bad :: post) = ((resolveAll url base pre).1, some e) := by
  rw [resolveAll_append, (resolveAll_parsed url base pre hpre).1]
  simp [resolveAll, hbad]


theorem handleLinks_visited_of_parsed {U : Type} (url : URLPackage U) (self : PID)
    (vf : VisitFunc) (links : List String) (m : Manager)
    (h : ∀ l ∈ links, ∃ u, url.Parse l = .ok u) (k : String) :
    (handleLinks url self vf m [] links).m.visited k =
      if k ∈ links ∧ m.visited k = none then some true else m.visited k := by
  obtain ⟨new, h1, _, _, h4⟩ := handleLinks_spec url self vf links m []
  rw [List.nil_append] at h1
  have hl := handleLinks_links url self vf links m h
  rw [h1] at hl
  rw [h4 k, hl]
  simp only [mem_removeLaterRepeats, List.mem_filter, decide_eq_true_eq]

theorem handleAll_visited_of_parsed {U : Type} (url : URLPackage U) (self : PID) :
    ∀ (msgs : List VisitRequest) (m : Manager),
      (∀ l ∈ allLinks msgs, ∃ u, url.Parse l = .ok u) → ∀ k : String,
      (handleAll url self m msgs).1.visited k =
        if k ∈ allLinks msgs ∧ m.visited k = none then some true else m.visited k
  | [], m, _, k => by simp [handleAll, allLinks]
  | msg :: rest, m, h, k => by
    have h1 : ∀ l ∈ msg.links, ∃ u, url.Parse l = .ok u := fun l hl =>
      h l (by simp only [allLinks, List.flatMap_cons, List.mem_append]; exact Or.inl hl)
    have h2 : ∀ l ∈ allLinks rest, ∃ u, url.Parse l = .ok u := fun l hl =>
      h l (by simp only [allLinks, List.flatMap_cons, List.mem_append]; exact Or.inr hl)
    have ih := handleAll_visited_of_parsed url self rest
      (handleLinks url self msg.visitFunc m [] msg.links).m h2 k
    have hstep : (handleAll url self m (msg :: rest)).1 =
        (handleAll url self (handleLinks url self msg.visitFunc m [] msg.links).m rest).1 := by
      simp only [handleAll, Manager.Receive, handleVisitRequest]
    rw [hstep, ih, handleLinks_visited_of_parsed url self msg.visitFunc msg.links m h1 k]
    simp only [allLinks, List.flatMap_cons, List.mem_append]
    by_cases hv : m.visited k = none
    · by_cases ha : k ∈ msg.links
      · simp [hv, ha]
      · simp [hv, ha]
    · simp [hv]

theorem resolveAll_fst_of_parsed {U : Type} (url : URLPackage U) (base : U) :
    ∀ hrefs : List String, (∀ h ∈ hrefs, ∃ u, url.Parse h = .ok u) →
      (resolveAll url base hrefs).1 = hrefs.filterMap (resolved url base)
  | [], _ => by simp [resolveAll]
  | href :: rest, h => by
    obtain ⟨lurl, hp⟩ := h href (List.mem_cons_self _ _)
    have ih := resolveAll_fst_of_parsed url base rest
      (fun x hx => h x (List.mem_cons_of_mem _ hx))
    simp [resolveAll, hp, ih, resolved, List.filterMap_cons]

theorem sentBatches_visits (ws : List Bytes) (rest : List Effect) :
    sentBatches (ws.map Effect.Visit ++ rest) = sentBatches rest := by
  induction ws with
  | nil => rfl
  | cons w ws ih => simpa [sentBatches] using ih

theorem poisoned_visits (ws : List Bytes) (rest : List Effect) :
    poisoned (ws.map Effect.Visit ++ rest) = poisoned rest := by
  induction ws with
  | nil => rfl
  | cons w ws ih => simpa [poisoned] using ih

/-- The batches the Started handler sends: one, with the links of `doVisit`, when
`doVisit` returns no error, none otherwise. -/
theorem sentBatches_Started {U : Type} (url : URLPackage U)
    (Get : String → Except Error Body) (self : PID) (v : Visitor U) :
    sentBatches (Visitor.Receive url Get self v Message.Started) =
      if (doVisit url Get v (url.URLString v.URL) v.visitFn).err = none then
        [(v.managerPID, (doVisit url Get v (url.URLString v.URL) v.visitFn).links)]
      else [] := by
  cases herr : (doVisit url Get v (url.URLString v.URL) v.visitFn).err with
  | some e =>
    have h := sentBatches_visits
      (doVisit url Get v (url.URLString v.URL) v.visitFn).sinkCalls []
    simp only [List.append_nil] at h
    simp [Visitor.Receive, herr, h, sentBatches]
  | none => simp [Visitor.Receive, herr, sentBatches_visits, sentBatches, NewVisitRequest]

/-- The PIDs the Started handler poisons: its own when `doVisit` returns no error,
none otherwise. -/
theorem poisoned_Started {U : Type} (url : URLPackage U)
    (Get : String → Except Error Body) (self : PID) (v : Visitor U) :
    poisoned (Visitor.Receive url Get self v Message.Started) =
      if (doVisit url Get v (url.URLString v.URL) v.visitFn).err = none then [self]
      else [] := by
  cases herr : (doVisit url Get v (url.URLString v.URL) v.visitFn).err with
  | some e =>
    have h := poisoned_visits
      (doVisit url Get v (url.URLString v.URL) v.visitFn).sinkCalls []
    simp only [List.append_nil] at h
    simp [Visitor.Receive, herr, h, poisoned]
  | none => simp [Visitor.Receive, herr, poisoned_visits, poisoned]

/-!
## The Manager: the seen-set and the spawns
-/

/-- C1, as the code has it. The seen-set is keyed by the link string, not by the
canonical URL. For every sequence of link batches handled one after another from a
fresh Manager, when no two different links of the batches have the same canonical
URL, the canonical URLs of the Visitors spawned are pairwise different: at most one
Visitor is spawned per canonical URL. Two different link strings that are unseen
and parse lead to one spawn each, whatever URLs they parse to. -/
theorem one_spawn_per_canonical_URL {U : Type} (url : URLPackage U) (self : PID) :
    (∀ msgs : List VisitRequest,
      (∀ l1 ∈ allLinks msgs, ∀ l2 ∈ allLinks msgs,
        canonical url l1 ≠ none → canonical url l1 = canonical url l2 → l1 = l2) →
      (spawnedURLs url (handleAll url self NewManager msgs).2).Nodup) ∧
    (∀ (m : Manager) (vf : VisitFunc) (l1 l2 : String) (u1 u2 : U),
      l1 ≠ l2 → m.visited l1 = none → m.visited l2 = none →
      url.Parse l1 = .ok u1 → url.Parse l2 = .ok u2 →
      spawnedLinks
          (handleVisitRequest url self m { links := [l1, l2], visitFunc := vf }).spawned =
        [l1, l2] ∧
      spawnedURLs url
          (handleVisitRequest url self m { links := [l1, l2], visitFunc := vf }).spawned =
        [url.URLString u1, url.URLString u2]) := by
  constructor
  · intro msgs hinj
    obtain ⟨h1, h2, _⟩ := handleAll_spec url self msgs NewManager
    have hcanon : ∀ sp ∈ (handleAll url self NewManager msgs).2,
        canonical url sp.link = some (url.URLString sp.visitor.URL) := by
      intro sp hsp
      simp [canonical, (h2 sp hsp).2.2]
    unfold spawnedURLs
    unfold spawnedLinks at h1
    refine List.Nodup.map_on ?_ (List.Nodup.of_map _ h1)
    intro a ha b hb hab
    have hl : a.link = b.link := by
      apply hinj a.link (h2 a ha).2.1 b.link (h2 b hb).2.1
      · rw [hcanon a ha]
        simp
      · rw [hcanon a ha, hcanon b hb, hab]
    exact List.inj_on_of_nodup_map h1 ha hb hl
  · intro m vf l1 l2 u1 u2 hne h1 h2 hp1 hp2
    have h2b : mapSet m.visited l1 true l2 = none := by
      simp only [mapSet]
      rw [if_neg (fun h => hne h.symm)]
      exact h2
    simp [handleVisitRequest, handleLinks, h1, hp1, h2b, hp2, spawnedLinks, spawnedURLs]

/-- Witness for C1: two batches of canonical links, one link delivered twice, and
a batch of two spellings of one URL. -/
theorem one_spawn_per_canonical_URL_witness :
    (∀ l1 ∈ allLinks batchesA, ∀ l2 ∈ allLinks batchesA,
      canonical goURL l1 ≠ none → canonical goURL l1 = canonical goURL l2 → l1 = l2) ∧
    (spawnedURLs goURL (handleAll goURL managerPID NewManager batchesA).2).Nodup ∧
    spawnedLinks
        (handleVisitRequest goURL managerPID NewManager
          { links := ["https://ok.com", "HTTPS://ok.com"], visitFunc := acceptingSink }).spawned =
      ["https://ok.com", "HTTPS://ok.com"] :=
  ⟨by decide, (one_spawn_per_canonical_URL goURL managerPID).1 batchesA (by decide),
    ((one_spawn_per_canonical_URL goURL managerPID).2 NewManager acceptingSink
      "https://ok.com" "HTTPS://ok.com" _ _ (by decide) rfl rfl rfl rfl).1⟩

/-- Counterexample to C1 as stated: `https://ok.com` and `HTTPS://ok.com` are
different link strings that parse to the same URL, and one batch holding both
spawns two Visitors, both bound to the canonical URL `https://ok.com`. -/
theorem one_spawn_per_canonical_URL_counterexample :
    goURL.Parse "HTTPS://ok.com" = goURL.Parse "https://ok.com" ∧
    spawnedLinks (handleAll goURL managerPID NewManager [batchTwoForms]).2 =
      ["https://ok.com", "HTTPS://ok.com"] ∧
    spawnedURLs goURL (handleAll goURL managerPID NewManager [batchTwoForms]).2 =
      ["https://ok.com", "https://ok.com"] ∧
    ¬ (spawnedURLs goURL (handleAll goURL managerPID NewManager [batchTwoForms]).2).Nodup :=
  ⟨rfl, by decide, by decide, by decide⟩

/-- C2. For every sequence of link batches handled one after another from a fresh
Manager, whether or not a batch ends with an error, no link has a Visitor spawned
for it twice. From any Manager, a Visitor is spawned by a batch only for a link
that is absent from the seen-set, the link is in the seen-set after that batch and
after every later sequence of batches, and a key of the seen-set stays a key, with
its value, through every sequence of batches. -/
theorem no_link_spawned_twice {U : Type} (url : URLPackage U) (self : PID) :
    (∀ msgs : List VisitRequest,
      (spawnedLinks (handleAll url self NewManager msgs).2).Nodup) ∧
    (∀ (m : Manager) (msg : VisitRequest),
      ∀ sp ∈ (handleVisitRequest url self m msg).spawned,
        m.visited sp.link = none ∧
        ∀ later : List VisitRequest,
          (handleAll url self (handleVisitRequest url self m msg).m later).1.visited sp.link =
            some true) ∧
    (∀ (m : Manager) (msgs : List VisitRequest) (k : String),
      m.visited k ≠ none → (handleAll url self m msgs).1.visited k = m.visited k) := by
  have hkeep : ∀ (m : Manager) (msgs : List VisitRequest) (k : String),
      m.visited k ≠ none → (handleAll url self m msgs).1.visited k = m.visited k := by
    intro m msgs k hk
    obtain ⟨_, h2, h3⟩ := handleAll_spec url self msgs m
    rw [h3 k]
    by_cases hmem : k ∈ spawnedLinks (handleAll url self m msgs).2
    · obtain ⟨sp, hsp, hl⟩ := List.mem_map.1 hmem
      have := (h2 sp hsp).1
      rw [hl] at this
      exact absurd this hk
    · simp [hmem]
  refine ⟨fun msgs => (handleAll_spec url self msgs NewManager).1, ?_, hkeep⟩
  intro m msg sp hsp
  obtain ⟨new, h1, _, h3, h4⟩ := handleLinks_spec url self msg.visitFunc msg.links m []
  rw [List.nil_append] at h1
  have hsp2 : sp ∈ new := by
    rw [← h1]
    exact hsp
  refine ⟨(h3 sp hsp2).1, ?_⟩
  intro later
  have hnow : (handleVisitRequest url self m msg).m.visited sp.link = some true := by
    show (handleLinks url self msg.visitFunc m [] msg.links).m.visited sp.link = some true
    have hmem : sp.link ∈ spawnedLinks new := List.mem_map.2 ⟨sp, hsp2, rfl⟩
    rw [h4 sp.link, if_pos hmem]
  rw [hkeep _ later sp.link (by rw [hnow]; simp), hnow]

/-- Witness for C2: three batches, the first of which ends with a parse error;
the link `https://ok.com` comes in all three and is spawned once. -/
theorem no_link_spawned_twice_witness :
    (handleVisitRequest goURL managerPID NewManager batchMalformed).err ≠ none ∧
    (spawnedLinks
      (handleAll goURL managerPID NewManager
        [batchMalformed, batchRepeats, batchTwoForms]).2).Nodup ∧
    spawnedLinks
      (handleAll goURL managerPID NewManager
        [batchMalformed, batchRepeats, batchTwoForms]).2 =
      ["https://ok.com", "https://ok2.com", "https://ok3.com", "HTTPS://ok.com"] :=
  ⟨by decide,
    (no_link_spawned_twice goURL managerPID).1 [batchMalformed, batchRepeats, batchTwoForms],
    by decide⟩

/-- C3, as the code has it. For every Manager and every link batch, a link that
fails to parse and is not in the seen-set ends the batch: `handleVisitRequest`
returns the parse error at once, with the Manager and the spawns of the batch cut
off before that link, so no link that comes after it is looked at. -/
theorem malformed_link_ends_batch {U : Type} (url : URLPackage U) (self : PID)
    (m : Manager) (vf : VisitFunc) (pre : List String) (bad : String) (post : List String)
    (e : Error)
    (hpre : ∀ l ∈ pre, m.visited l ≠ none ∨ ∃ u, url.Parse l = .ok u)
    (hunseen : m.visited bad = none) (hbad : url.Parse bad = .error e) :
    handleVisitRequest url self m { links := pre ++ bad :: post, visitFunc := vf } =
      { m := (handleVisitRequest url self m { links := pre, visitFunc := vf }).m
        spawned := (handleVisitRequest url self m { links := pre, visitFunc := vf }).spawned
        err := some e } ∧
    (handleVisitRequest url self m { links := pre, visitFunc := vf }).err = none := by
  have herr := handleLinks_err_none url self vf pre m [] hpre
  refine ⟨?_, herr⟩
  simp only [handleVisitRequest]
  rw [handleLinks_append url self vf pre (bad :: post) m [] herr]
  obtain ⟨new, _, _, h3, h4⟩ := handleLinks_spec url self vf pre m []
  have hstill : (handleLinks url self vf m [] pre).m.visited bad = none := by
    rw [h4 bad]
    by_cases hmem : bad ∈ spawnedLinks new
    · obtain ⟨sp, hsp, hl⟩ := List.mem_map.1 hmem
      have := (h3 sp hsp).2.2
      rw [hl, hbad] at this
      cases this
    · simp [hmem, hunseen]
  simp only [handleLinks, hstill, hbad]

/-- Witness for C3: the batch of the example, from an empty seen-set. -/
theorem malformed_link_ends_batch_witness :
    (∀ l ∈ ["https://ok.com"],
      NewManager.visited l ≠ none ∨ ∃ u, goURL.Parse l = .ok u) ∧
    NewManager.visited "://bad" = none ∧
    goURL.Parse "://bad" = .error "missing protocol scheme" ∧
    handleVisitRequest goURL managerPID NewManager
        { links := ["https://ok.com"] ++ "://bad" :: ["https://ok2.com"]
          visitFunc := acceptingSink } =
      { m := (handleVisitRequest goURL managerPID NewManager
          { links := ["https://ok.com"], visitFunc := acceptingSink }).m
        spawned := (handleVisitRequest goURL managerPID NewManager
          { links := ["https://ok.com"], visitFunc := acceptingSink }).spawned
        err := some "missing protocol scheme" } ∧
    spawnedLinks (handleVisitRequest goURL managerPID NewManager
      { links := ["https://ok.com"], visitFunc := acceptingSink }).spawned =
      ["https://ok.com"] :=
  ⟨fun l hl => Or.inr (by rw [List.mem_singleton.1 hl]; exact ⟨_, rfl⟩), rfl, rfl,
    (malformed_link_ends_batch goURL managerPID NewManager acceptingSink ["https://ok.com"]
      "://bad" ["https://ok2.com"] "missing protocol scheme"
      (fun l hl => Or.inr (by rw [List.mem_singleton.1 hl]; exact ⟨_, rfl⟩)) rfl rfl).1,
    by decide⟩

/-- Counterexample to C3 as stated: from an empty seen-set the batch
`["https://ok.com", "://bad", "https://ok2.com"]` spawns one Visitor, for
`https://ok.com`, and returns the parse error of `://bad`; `https://ok2.com`, which
is well formed and unseen, is not scheduled. -/
theorem malformed_link_counterexample :
    spawnedLinks (handleVisitRequest goURL managerPID NewManager batchMalformed).spawned =
      ["https://ok.com"] ∧
    (handleVisitRequest goURL managerPID NewManager batchMalformed).err =
      some "missing protocol scheme" ∧
    canonical goURL "https://ok2.com" = some "https://ok2.com" ∧
    (handleVisitRequest goURL managerPID NewManager batchMalformed).m.visited
      "https://ok2.com" = none ∧
    spawnedLinks (handleVisitRequest goURL managerPID NewManager batchMalformed).spawned ≠
      ["https://ok.com", "https://ok2.com"] :=
  ⟨by decide, by decide, by decide, by decide, by decide⟩

/-- C4, as the code has it. For every two sequences of link batches that contain
the same set of link strings, all of which parse, handling each sequence from a
fresh Manager gives the same final seen-set: the two maps `visited` have the same
keys, with the same values. -/
theorem same_links_same_seen_set {U : Type} (url : URLPackage U) (self : PID)
    (A B : List VisitRequest)
    (hsame : ∀ l, l ∈ allLinks A ↔ l ∈ allLinks B)
    (hparse : ∀ l ∈ allLinks A, ∃ u, url.Parse l = .ok u) :
    ∀ k : String,
      (handleAll url self NewManager A).1.visited k =
        (handleAll url self NewManager B).1.visited k := by
  intro k
  have hparseB : ∀ l ∈ allLinks B, ∃ u, url.Parse l = .ok u :=
    fun l hl => hparse l ((hsame l).2 hl)
  rw [handleAll_visited_of_parsed url self A NewManager hparse k,
    handleAll_visited_of_parsed url self B NewManager hparseB k]
  by_cases hk : k ∈ allLinks A
  · simp [hk, (hsame k).1 hk]
  · have hkB : k ∉ allLinks B := fun h => hk ((hsame k).2 h)
    simp [hk, hkB]

/-- Witness for C4: the same two links in two batches and in three. -/
theorem same_links_same_seen_set_witness :
    (∀ l, l ∈ allLinks batchesA ↔ l ∈ allLinks batchesB) ∧
    (∀ l ∈ allLinks batchesA, ∃ u, goURL.Parse l = .ok u) ∧
    (∀ k : String,
      (handleAll goURL managerPID NewManager batchesA).1.visited k =
        (handleAll goURL managerPID NewManager batchesB).1.visited k) ∧
    (handleAll goURL managerPID NewManager batchesA).1.visited "https://ok2.com" =
      some true :=
  have hsame : ∀ l, l ∈ allLinks batchesA ↔ l ∈ allLinks batchesB := by
    intro l
    simp only [allLinks, batchesA, batchesB, NewVisitRequest, List.flatMap_cons,
      List.flatMap_nil, List.mem_append, List.mem_cons, List.mem_nil_iff, List.nil_append,
      List.append_nil, or_false]
    tauto
  have hparse : ∀ l ∈ allLinks batchesA, ∃ u, goURL.Parse l = .ok u := by
    intro l hl
    simp only [allLinks, batchesA, NewVisitRequest, List.flatMap_cons, List.flatMap_nil,
      List.mem_append, List.mem_cons, List.mem_nil_iff, List.append_nil, or_false] at hl
    rcases hl with (rfl | rfl) | rfl <;> exact ⟨_, rfl⟩
  ⟨hsame, hparse, same_links_same_seen_set goURL managerPID batchesA batchesB hsame hparse,
    by decide⟩

/-- Counterexample to C4 as stated: the batches `["://bad", "https://ok.com"]` and
`["https://ok.com", "://bad"]` hold the same set of links, and from a fresh
Manager the first leaves the seen-set empty at `https://ok.com` while the second
has it as a key. -/
theorem same_links_same_seen_set_counterexample :
    (∀ l, l ∈ allLinks [batchBadFirst] ↔ l ∈ allLinks [batchBadLast]) ∧
    (handleAll goURL managerPID NewManager [batchBadFirst]).1.visited "https://ok.com" =
      none ∧
    (handleAll goURL managerPID NewManager [batchBadLast]).1.visited "https://ok.com" =
      some true ∧
    ¬ (∀ k : String,
      (handleAll goURL managerPID NewManager [batchBadFirst]).1.visited k ≠ none ↔
        (handleAll goURL managerPID NewManager [batchBadLast]).1.visited k ≠ none) :=
  ⟨by
      intro l
      simp only [allLinks, batchBadFirst, batchBadLast, NewVisitRequest, List.flatMap_cons,
        List.flatMap_nil, List.mem_append, List.mem_cons, List.mem_nil_iff, List.append_nil,
        or_false]
      tauto,
    by decide, by decide,
    fun h => absurd ((h "https://ok.com").2 (by decide)) (by decide)⟩

/-- C10. For every seen-set and every link batch in which all links parse, the
links for which `handleVisitRequest` spawns Visitors are the batch with the
already-seen links and the later repeats of a link removed, in the order of the
batch; no error is returned; the keys of the seen-set afterwards are the keys
before and those links, each of them now true and every other key as before. An
empty batch spawns nothing and leaves the Manager as it is. -/
theorem handleVisitRequest_spawns_unseen_in_order {U : Type} (url : URLPackage U)
    (self : PID) (m : Manager) (msg : VisitRequest)
    (hparse : ∀ l ∈ msg.links, ∃ u, url.Parse l = .ok u) :
    spawnedLinks (handleVisitRequest url self m msg).spawned =
      removeLaterRepeats (msg.links.filter fun l => decide (m.visited l = none)) ∧
    (handleVisitRequest url self m msg).err = none ∧
    (∀ k, (handleVisitRequest url self m msg).m.visited k ≠ none ↔
      (m.visited k ≠ none ∨ k ∈ spawnedLinks (handleVisitRequest url self m msg).spawned)) ∧
    (∀ k, (handleVisitRequest url self m msg).m.visited k =
      if k ∈ spawnedLinks (handleVisitRequest url self m msg).spawned then some true
      else m.visited k) ∧
    (msg.links = [] →
      (handleVisitRequest url self m msg).spawned = [] ∧
        (handleVisitRequest url self m msg).m = m) := by
  have hl := handleLinks_links url self msg.visitFunc msg.links m hparse
  obtain ⟨new, h1, _, h3, h4⟩ := handleLinks_spec url self msg.visitFunc msg.links m []
  rw [List.nil_append] at h1
  have hv : ∀ k, (handleVisitRequest url self m msg).m.visited k =
      if k ∈ spawnedLinks (handleVisitRequest url self m msg).spawned then some true
      else m.visited k := by
    intro k
    show (handleLinks url self msg.visitFunc m [] msg.links).m.visited k =
      if k ∈ spawnedLinks (handleLinks url self msg.visitFunc m [] msg.links).spawned
      then some true else m.visited k
    rw [h1]
    exact h4 k
  refine ⟨hl, ?_, ?_, hv, ?_⟩
  · exact handleLinks_err_none url self msg.visitFunc msg.links m []
      (fun l hl => Or.inr (hparse l hl))
  · intro k
    rw [hv k]
    by_cases hk : k ∈ spawnedLinks (handleVisitRequest url self m msg).spawned
    · simp [hk]
    · simp [hk]
  · intro hnil
    simp [handleVisitRequest, hnil, handleLinks]

/-- Witness for C10: a Manager that has seen `https://ok.com`, and a batch that
holds that link and repeats another. -/
theorem handleVisitRequest_spawns_unseen_in_order_witness :
    (∀ l ∈ batchRepeats.links, ∃ u, goURL.Parse l = .ok u) ∧
    spawnedLinks (handleVisitRequest goURL managerPID managerSeenOk batchRepeats).spawned =
      removeLaterRepeats
        (batchRepeats.links.filter fun l => decide (managerSeenOk.visited l = none)) ∧
    spawnedLinks (handleVisitRequest goURL managerPID managerSeenOk batchRepeats).spawned =
      ["https://ok2.com", "https://ok3.com"] :=
  have hparse : ∀ l ∈ batchRepeats.links, ∃ u, goURL.Parse l = .ok u := by
    intro l hl
    simp only [batchRepeats, NewVisitRequest, List.mem_cons, List.mem_nil_iff,
      or_false] at hl
    rcases hl with rfl | rfl | rfl | rfl <;> exact ⟨_, rfl⟩
  ⟨hparse,
    (handleVisitRequest_spawns_unseen_in_order goURL managerPID managerSeenOk batchRepeats
      hparse).1,
    by decide⟩

/-!
## The Visitor: the visit and the report
-/

/-- C5. On its Started message a Visitor sends a link batch to the Manager if and
only if `doVisit` returns no error, and then it sends one batch, holding the links
`doVisit` returned; `doVisit` returns no error exactly when parsing the bound URL,
the GET, the link extraction and the sink call all succeed, and its links are then
all the extracted links. When the sink returns an error nothing is sent. -/
theorem visitor_reports_iff_visit_succeeds {U : Type} (url : URLPackage U)
    (Get : String → Except Error Body) (self : PID) (v : Visitor U) :
    (sentBatches (Visitor.Receive url Get self v Message.Started) =
      if (doVisit url Get v (url.URLString v.URL) v.visitFn).err = none then
        [(v.managerPID, (doVisit url Get v (url.URLString v.URL) v.visitFn).links)]
      else []) ∧
    ((doVisit url Get v (url.URLString v.URL) v.visitFn).err = none ↔
      ∃ baseURL resp,
        url.Parse (url.URLString v.URL) = .ok baseURL ∧
        Get (url.URLString baseURL) = .ok resp ∧
        (extractLinks url v resp).2 = none ∧
        v.visitFn resp.raw = none) ∧
    (∀ baseURL resp,
      url.Parse (url.URLString v.URL) = .ok baseURL →
      Get (url.URLString baseURL) = .ok resp →
      (extractLinks url v resp).2 = none →
      v.visitFn resp.raw = none →
      (doVisit url Get v (url.URLString v.URL) v.visitFn).links =
        (extractLinks url v resp).1) ∧
    (∀ baseURL resp e,
      url.Parse (url.URLString v.URL) = .ok baseURL →
      Get (url.URLString baseURL) = .ok resp →
      v.visitFn resp.raw = some e →
      sentBatches (Visitor.Receive url Get self v Message.Started) = []) := by
  have hsent := sentBatches_Started url Get self v
  refine ⟨hsent, ?_, ?_, ?_⟩
  · constructor
    · intro h
      cases hp : url.Parse (url.URLString v.URL) with
      | error e => simp [doVisit, hp] at h
      | ok baseURL =>
        cases hg : Get (url.URLString baseURL) with
        | error e => simp [doVisit, hp, hg] at h
        | ok resp =>
          cases hx : extractLinks url v resp with
          | mk links xerr =>
            cases xerr with
            | some e => simp [doVisit, hp, hg, hx] at h
            | none =>
              cases hs : v.visitFn resp.raw with
              | some e => simp [doVisit, hp, hg, hx, hs] at h
              | none => exact ⟨baseURL, resp, rfl, hg, by simp [hx], hs⟩
    · rintro ⟨baseURL, resp, hp, hg, hx, hs⟩
      cases hx2 : extractLinks url v resp with
      | mk links xerr =>
        rw [hx2] at hx
        simp only at hx
        subst hx
        simp [doVisit, hp, hg, hx2, hs]
  · intro baseURL resp hp hg hx hs
    cases hx2 : extractLinks url v resp with
    | mk links xerr =>
      rw [hx2] at hx
      simp only at hx
      subst hx
      simp [doVisit, hp, hg, hx2, hs]
  · intro baseURL resp e hp hg hs
    rw [hsent]
    cases hx2 : extractLinks url v resp with
    | mk links xerr =>
      cases xerr with
      | some e2 => simp [doVisit, hp, hg, hx2]
      | none => simp [doVisit, hp, hg, hx2, hs]

/-- Witness for C5: a Visitor whose sink rejects the page sends nothing, and the
same Visitor with a sink that accepts it sends the three links of the page. -/
theorem visitor_reports_iff_visit_succeeds_witness :
    sentBatches (Visitor.Receive goURL (getBody pageThreeLinks) visitorPID
      { exampleVisitor with visitFn := rejectingSink } Message.Started) = [] ∧
    sentBatches (Visitor.Receive goURL (getBody pageThreeLinks) visitorPID exampleVisitor
      Message.Started) =
      [(managerPID,
        ["https://example.com/a/c", "https://example.com/d", "https://other.com/x"])] :=
  ⟨(visitor_reports_iff_visit_succeeds goURL (getBody pageThreeLinks) visitorPID
      { exampleVisitor with visitFn := rejectingSink }).2.2.2 exampleBase pageThreeLinks
      "sink: rejected" rfl rfl rfl,
    by decide⟩

/-- C6, as the code has it. For every token stream, the first href of a start tag
named `a` that fails to parse aborts the visit: `extractLinks` returns the parse
error, with the resolved links of the hrefs before it, and `doVisit` returns that
error with no links and without calling the sink. -/
theorem malformed_href_aborts_visit {U : Type} (url : URLPackage U)
    (Get : String → Except Error Body) (v : Visitor U) (link : String) (visit : VisitFunc)
    (baseURL : U) (body : Body) (pre : List String) (bad : String) (post : List String)
    (e : Error)
    (hhrefs : anchorHrefs (scanned body.tokens) = pre ++ bad :: post)
    (hpre : ∀ h ∈ pre, ∃ u, url.Parse h = .ok u)
    (hbad : url.Parse bad = .error e)
    (hlink : url.Parse link = .ok baseURL)
    (hget : Get (url.URLString baseURL) = .ok body) :
    extractLinks url v body = (pre.filterMap (resolved url v.URL), some e) ∧
    doVisit url Get v link visit = { links := [], err := some e, sinkCalls := [] } := by
  have hx : extractLinks url v body = (pre.filterMap (resolved url v.URL), some e) := by
    rw [extractLinks_eq, hhrefs, resolveAll_malformed url v.URL pre bad post e hpre hbad,
      resolveAll_fst_of_parsed url v.URL pre hpre]
  refine ⟨hx, ?_⟩
  simp [doVisit, hlink, hget, hx]

/-- Witness for C6: a page whose second anchor has the href `://bad`. -/
theorem malformed_href_aborts_visit_witness :
    anchorHrefs (scanned pageBadHref.tokens) = ["c"] ++ "://bad" :: ["/d"] ∧
    (∀ h ∈ ["c"], ∃ u, goURL.Parse h = .ok u) ∧
    goURL.Parse "://bad" = .error "missing protocol scheme" ∧
    goURL.Parse "https://example.com/a/b" = .ok exampleBase ∧
    extractLinks goURL exampleVisitor pageBadHref =
      (["c"].filterMap (resolved goURL exampleVisitor.URL), some "missing protocol scheme") ∧
    doVisit goURL (getBody pageBadHref) exampleVisitor "https://example.com/a/b"
        acceptingSink =
      { links := [], err := some "missing protocol scheme", sinkCalls := [] } :=
  have h := malformed_href_aborts_visit goURL (getBody pageBadHref) exampleVisitor
    "https://example.com/a/b" acceptingSink exampleBase pageBadHref ["c"] "://bad" ["/d"]
    "missing protocol scheme" (by decide)
    (fun h hh => by rw [List.mem_singleton.1 hh]; exact ⟨_, rfl⟩) rfl rfl rfl
  ⟨by decide, fun h hh => by rw [List.mem_singleton.1 hh]; exact ⟨_, rfl⟩, rfl, rfl,
    h.1, h.2⟩

/-- Counterexample to C6 as stated: on a page with the anchors `c`, `://bad` and
`/d`, `extractLinks` returns an error, the link of `/d` is not in its result, and
`doVisit` returns the error with no links and does not call the sink. -/
theorem malformed_href_counterexample :
    extractLinks goURL exampleVisitor pageBadHref =
      (["https://example.com/a/c"], some "missing protocol scheme") ∧
    canonical goURL "/d" = some "/d" ∧
    (doVisit goURL (getBody pageBadHref) exampleVisitor "https://example.com/a/b"
      acceptingSink).err = some "missing protocol scheme" ∧
    (doVisit goURL (getBody pageBadHref) exampleVisitor "https://example.com/a/b"
      acceptingSink).links = [] ∧
    (doVisit goURL (getBody pageBadHref) exampleVisitor "https://example.com/a/b"
      acceptingSink).sinkCalls = [] :=
  ⟨rfl, by decide, by decide, by decide, by decide⟩

/-- C7, as the code has it. `extractLinks` does not look at the error that stopped
the scan: whatever that error is, `io.EOF` or not, when every href of the scanned
anchors parses `extractLinks` returns the links and no error, `doVisit` calls the
sink once with the bytes read, and when the sink accepts them the Visitor sends
those links to the Manager as one batch. -/
theorem scan_error_ends_extraction_normally {U : Type} (url : URLPackage U)
    (Get : String → Except Error Body) (self : PID) (v : Visitor U) (baseURL : U)
    (tokens : List Token) (e : Error) (raw : Bytes)
    (hhrefs : ∀ h ∈ anchorHrefs (scanned tokens), ∃ u, url.Parse h = .ok u)
    (hlink : url.Parse (url.URLString v.URL) = .ok baseURL)
    (hget : Get (url.URLString baseURL) = .ok { tokens := tokens, err := e, raw := raw }) :
    extractLinks url v { tokens := tokens, err := e, raw := raw } =
      ((anchorHrefs (scanned tokens)).filterMap (resolved url v.URL), none) ∧
    (doVisit url Get v (url.URLString v.URL) v.visitFn).sinkCalls = [raw] ∧
    (doVisit url Get v (url.URLString v.URL) v.visitFn).err = v.visitFn raw ∧
    (v.visitFn raw = none →
      sentBatches (Visitor.Receive url Get self v Message.Started) =
        [(v.managerPID, (anchorHrefs (scanned tokens)).filterMap (resolved url v.URL))]) := by
  have hx : extractLinks url v { tokens := tokens, err := e, raw := raw } =
      ((anchorHrefs (scanned tokens)).filterMap (resolved url v.URL), none) := by
    rw [extractLinks_eq]
    have h1 := (resolveAll_parsed url v.URL _ hhrefs).1
    have h2 := resolveAll_fst_of_parsed url v.URL _ hhrefs
    exact Prod.ext h2 h1
  have hcalls : (doVisit url Get v (url.URLString v.URL) v.visitFn).sinkCalls = [raw] := by
    cases hs : v.visitFn raw <;> simp [doVisit, hlink, hget, hx, hs]
  have herr : (doVisit url Get v (url.URLString v.URL) v.visitFn).err = v.visitFn raw := by
    cases hs : v.visitFn raw <;> simp [doVisit, hlink, hget, hx, hs]
  refine ⟨hx, hcalls, herr, ?_⟩
  intro hs
  have hlinks : (doVisit url Get v (url.URLString v.URL) v.visitFn).links =
      (anchorHrefs (scanned tokens)).filterMap (resolved url v.URL) := by
    simp [doVisit, hlink, hget, hx, hs]
  rw [sentBatches_Started url Get self v, herr, hs, hlinks]
  simp

/-- Witness for C7: a page whose scan stops on `unexpected EOF` after one anchor. -/
theorem scan_error_ends_extraction_normally_witness :
    pageCutOff.err ≠ ioEOF ∧
    (∀ h ∈ anchorHrefs (scanned [anchor "/d"]), ∃ u, goURL.Parse h = .ok u) ∧
    goURL.Parse (goURL.URLString exampleVisitor.URL) = .ok exampleBase ∧
    extractLinks goURL exampleVisitor
        { tokens := [anchor "/d"], err := "unexpected EOF", raw := [60, 97, 32] } =
      ((anchorHrefs (scanned [anchor "/d"])).filterMap (resolved goURL exampleVisitor.URL),
        none) ∧
    (doVisit goURL (getBody pageCutOff) exampleVisitor (goURL.URLString exampleVisitor.URL)
      exampleVisitor.visitFn).sinkCalls = [[60, 97, 32]] ∧
    sentBatches (Visitor.Receive goURL (getBody pageCutOff) visitorPID exampleVisitor
      Message.Started) =
      [(exampleVisitor.managerPID,
        (anchorHrefs (scanned [anchor "/d"])).filterMap (resolved goURL exampleVisitor.URL))] :=
  have hhrefs : ∀ h ∈ anchorHrefs (scanned [anchor "/d"]), ∃ u, goURL.Parse h = .ok u := by
    intro h hh
    have hd : anchorHrefs (scanned [anchor "/d"]) = ["/d"] := by decide
    rw [hd] at hh
    rw [List.mem_singleton.1 hh]
    exact ⟨_, rfl⟩
  have h := scan_error_ends_extraction_normally goURL (getBody pageCutOff) visitorPID
    exampleVisitor exampleBase [anchor "/d"] "unexpected EOF" [60, 97, 32] hhrefs rfl rfl
  ⟨by decide, hhrefs, rfl, h.1, h.2.1, h.2.2.2 rfl⟩

/-- Counterexample to C7 as stated: the scan of the page stops on the error
`unexpected EOF`, which is not `io.EOF`, and `extractLinks` returns no error,
`doVisit` calls the sink with the bytes read and returns no error, and the Visitor
sends the link batch. -/
theorem scan_error_counterexample :
    pageCutOff.err ≠ ioEOF ∧
    extractLinks goURL exampleVisitor pageCutOff = (["https://example.com/d"], none) ∧
    (doVisit goURL (getBody pageCutOff) exampleVisitor (goURL.URLString exampleVisitor.URL)
      exampleVisitor.visitFn).err = none ∧
    (doVisit goURL (getBody pageCutOff) exampleVisitor (goURL.URLString exampleVisitor.URL)
      exampleVisitor.visitFn).sinkCalls = [[60, 97, 32]] ∧
    sentBatches (Visitor.Receive goURL (getBody pageCutOff) visitorPID exampleVisitor
      Message.Started) = [(managerPID, ["https://example.com/d"])] :=
  ⟨by decide, rfl, by decide, by decide, by decide⟩

/-- C8. For every Visitor and every token stream in which all hrefs of the scanned
start tags named `a` parse, `extractLinks` returns no error and, in document order,
one entry per such href and nothing else, each entry being the string form of the
resolution of that href against the URL the Visitor is bound to. For a Visitor
bound to `https://example.com/a/b`, the hrefs `c`, `/d` and `https://other.com/x`
give `https://example.com/a/c`, `https://example.com/d` and `https://other.com/x`;
the href of a `link` tag and of a self-closing `a` tag, and the `class` of an `a`
tag, give nothing. -/
theorem extractLinks_resolves_anchor_hrefs :
    (∀ (U : Type) (url : URLPackage U) (v : Visitor U) (body : Body),
      (∀ h ∈ anchorHrefs (scanned body.tokens), ∃ u, url.Parse h = .ok u) →
      (extractLinks url v body).2 = none ∧
      List.Forall₂
        (fun href link => ∃ lurl, url.Parse href = .ok lurl ∧
          link = url.URLString (url.ResolveReference v.URL lurl))
        (anchorHrefs (scanned body.tokens)) (extractLinks url v body).1) ∧
    (goURL.Parse "https://example.com/a/b" = .ok exampleVisitor.URL ∧
      anchorHrefs (scanned pageThreeLinks.tokens) = ["c", "/d", "https://other.com/x"] ∧
      extractLinks goURL exampleVisitor pageThreeLinks =
        (["https://example.com/a/c", "https://example.com/d", "https://other.com/x"],
          none)) := by
  refine ⟨?_, rfl, by decide, rfl⟩
  intro U url v body h
  rw [extractLinks_eq]
  exact resolveAll_parsed url v.URL _ h

/-- Witness for C8: the page of the example. -/
theorem extractLinks_resolves_anchor_hrefs_witness :
    (∀ h ∈ anchorHrefs (scanned pageThreeLinks.tokens), ∃ u, goURL.Parse h = .ok u) ∧
    (extractLinks goURL exampleVisitor pageThreeLinks).2 = none ∧
    List.Forall₂
      (fun href link => ∃ lurl, goURL.Parse href = .ok lurl ∧
        link = goURL.URLString (goURL.ResolveReference exampleVisitor.URL lurl))
      (anchorHrefs (scanned pageThreeLinks.tokens))
      (extractLinks goURL exampleVisitor pageThreeLinks).1 :=
  have hhrefs : ∀ h ∈ anchorHrefs (scanned pageThreeLinks.tokens),
      ∃ u, goURL.Parse h = .ok u := by
    intro h hh
    have hd : anchorHrefs (scanned pageThreeLinks.tokens) =
        ["c", "/d", "https://other.com/x"] := by decide
    rw [hd] at hh
    simp only [List.mem_cons, List.mem_nil_iff, or_false] at hh
    rcases hh with rfl | rfl | rfl <;> exact ⟨_, rfl⟩
  ⟨hhrefs, extractLinks_resolves_anchor_hrefs.1 GoURL.URL goURL exampleVisitor pageThreeLinks
    hhrefs⟩

/-- C9, on the code. A Visitor whose GET fails poisons no PID in its Started
handler, and neither does one whose sink rejects the page, while a Visitor whose
visit succeeds poisons its own PID after sending its batch. -/
theorem failed_visit_is_not_poisoned :
    (doVisit goURL getFails exampleVisitor (goURL.URLString exampleVisitor.URL)
      exampleVisitor.visitFn).err = some "dial tcp: connection refused" ∧
    poisoned (Visitor.Receive goURL getFails visitorPID exampleVisitor Message.Started) = [] ∧
    poisoned (Visitor.Receive goURL (getBody pageThreeLinks) visitorPID
      { exampleVisitor with visitFn := rejectingSink } Message.Started) = [] ∧
    poisoned (Visitor.Receive goURL (getBody pageThreeLinks) visitorPID exampleVisitor
      Message.Started) = [visitorPID] :=
  ⟨by decide, by decide, by decide, by decide⟩

end Distriscrappy
